import Mathlib

/-!
Verification of the logstore-mirror stream-delivery core.

Shallow embedding of the repository's PushBuffer / Pipeline / pOnce /
OrderingUtil code (TypeScript) into Lean 4, together with theorems settling
the frozen specification claims.

Conventions:
* JS promises returned by `push()` / `Gate.check()` are modelled by their
  observable settlement status at a given program point: already resolved
  with a boolean, or still pending.
* Async generators are modelled as explicit state machines; one `readStep`
  corresponds to one `next()` call on the `PushBuffer` iterator.
* JS strings are modelled as `List Char`, so string concatenation is list
  append.
-/

/-! ## Gate

The `Gate` class is imported by the PushBuffer source (`./Gate`) but its file
is not part of the repository snapshot.  Modelled from the spec:
state ∈ \x7bopen, closed, locked\x7d; `open()/close()/lock()` set the state;
`check()` resolves true as soon as the state becomes open, resolves false
immediately and permanently once locked, and otherwise suspends;
`setOpenState(bool)` toggles open/closed only and is a no-op once locked;
`isLocked` is queryable. -/

inductive GateState : Type
  | opened
  | closed
  | locked
  deriving DecidableEq

structure Gate : Type where
  state : GateState
  deriving DecidableEq

def Gate.isLocked (g : Gate) : Bool :=
  g.state = GateState.locked

/-- Modelled from the spec: `setOpenState` toggles open/closed, no-op once
locked. -/
def Gate.setOpenState (g : Gate) (b : Bool) : Gate :=
  if g.isLocked then g
  else ⟨if b then GateState.opened else GateState.closed⟩

def Gate.openGate (g : Gate) : Gate :=
  g.setOpenState true

def Gate.closeGate (g : Gate) : Gate :=
  g.setOpenState false

/-- Modelled from the spec: locking is permanent ("resolves false immediately
and permanently once locked"). -/
def Gate.lockGate (_g : Gate) : Gate :=
  ⟨GateState.locked⟩

/-- Settlement status of a `check()` promise issued right now: `some true`
when the gate is open, `some false` when it is locked, `none` (pending)
while it is closed. -/
def Gate.checkNow (g : Gate) : Option Bool :=
  match g.state with
  | GateState.opened => some true
  | GateState.locked => some false
  | GateState.closed => none

/-! ## PushBuffer

Embedding of `class PushBuffer<T>` (src/unnamed/part_003, lines 388-628).
The buffer stores `T | Error` values, so the element type is `T ⊕ E`.
`isIterating` is set when the `iterate()` generator body first runs;
`iterDone` records that the generator has finished (its `finally` ran or the
body completed), after which `next()` yields `\x7bdone: true\x7d` forever. -/

structure PushBuffer (T E : Type) : Type where
  buffer : List (T ⊕ E)
  bufferSize : Nat
  writeGate : Gate
  readGate : Gate
  error : Option E
  isIterating : Bool
  iterDone : Bool
  deriving DecidableEq

/-- `new PushBuffer(bufferSize)`: both gates start closed, buffer empty.
(The constructor's safe-positive-integer validation is not itself under
test by any claim; size hypotheses appear in the theorems instead.) -/
def PushBuffer.new (T E : Type) (bufferSize : Nat) : PushBuffer T E :=
  { buffer := []
    bufferSize := bufferSize
    writeGate := ⟨GateState.closed⟩
    readGate := ⟨GateState.closed⟩
    error := none
    isIterating := false
    iterDone := false }

/-- `isFull()`: true if buffered at least bufferSize items. -/
def PushBuffer.isFull (s : PushBuffer T E) : Bool :=
  s.buffer.length ≥ s.bufferSize

/-- `isDone()`: both gates locked. -/
def PushBuffer.isDone (s : PushBuffer T E) : Bool :=
  s.writeGate.isLocked && s.readGate.isLocked

/-- `isWritable()`: neither gate locked. -/
def PushBuffer.isWritable (s : PushBuffer T E) : Bool :=
  !s.writeGate.isLocked && !s.readGate.isLocked

/-- `updateWriteGate()`: `this.writeGate.setOpenState(!this.isFull())`. -/
def PushBuffer.updateWriteGate (s : PushBuffer T E) : PushBuffer T E :=
  { s with writeGate := s.writeGate.setOpenState (!s.isFull) }

/-- Observable status of the promise returned by one `push()` call, at the
moment the synchronous part of `push()` has run. -/
inductive PushResult : Type
  | notWritable
  | resolved (b : Bool)
  | pending
  deriving DecidableEq

/-- `push(item)`: returns false immediately when not writable; otherwise
appends the item, runs `updateWriteGate()`, opens the read gate and returns
`writeGate.check()`.  Note the item is appended unconditionally (before any
await), so the returned promise may be pending while the item is already
buffered. -/
def PushBuffer.push (s : PushBuffer T E) (item : T ⊕ E) :
    PushResult × PushBuffer T E :=
  if s.isWritable then
    let s1 := ({ s with buffer := s.buffer ++ [item] } : PushBuffer T E).updateWriteGate
    let s2 : PushBuffer T E := { s1 with readGate := s1.readGate.openGate }
    match s2.writeGate.checkNow with
    | some b => (PushResult.resolved b, s2)
    | none => (PushResult.pending, s2)
  else
    (PushResult.notWritable, s)

/-- `lock()`: lock both gates. -/
def PushBuffer.lockBoth (s : PushBuffer T E) : PushBuffer T E :=
  { s with writeGate := s.writeGate.lockGate, readGate := s.readGate.lockGate }

/-- `end(err?)`: record the error (overwriting any previous one) and lock
both gates. -/
def PushBuffer.endBuf (s : PushBuffer T E) (err : Option E) : PushBuffer T E :=
  let s1 : PushBuffer T E :=
    match err with
    | some e => { s with error := some e }
    | none => s
  s1.lockBoth

/-- `endWrite(err?)`: record the error only if none is recorded yet, open the
read gate, lock the write gate. -/
def PushBuffer.endWrite (s : PushBuffer T E) (err : Option E) : PushBuffer T E :=
  let s1 : PushBuffer T E :=
    match err with
    | some e => if s.error.isNone then { s with error := some e } else s
    | none => s
  { s1 with readGate := s1.readGate.openGate, writeGate := s1.writeGate.lockGate }

/-- Outcome of one `next()` call on the `iterate()` generator. -/
inductive ReadResult (T E : Type) : Type
  | yields (x : T)
  | throws (e : E)
  | done
  | blocked
  deriving DecidableEq

/-- The generator's `finally` block: `this.buffer = []; this.lock()`; after
it the generator is finished. -/
def PushBuffer.finalizeIter (s : PushBuffer T E) : PushBuffer T E :=
  { s.lockBoth with buffer := [], iterDone := true }

/-- The code after the read loop: throw the stored error (clearing it) if
any, otherwise complete normally; either way the `finally` block runs. -/
def PushBuffer.finishRead (s : PushBuffer T E) :
    ReadResult T E × PushBuffer T E :=
  match s.error with
  | some e => (ReadResult.throws e, ({ s with error := none } : PushBuffer T E).finalizeIter)
  | none => (ReadResult.done, s.finalizeIter)

/-- One `next()` call on the `iterate()` generator (lines 535-579):
* a finished generator keeps returning done;
* otherwise the body is running (`isIterating = true`);
* read gate locked: exit the loop (buffered items are never yielded),
  then throw the stored error or complete (`finishRead`);
* buffer non-empty: shift the first element, `updateWriteGate()`; an `Error`
  element is thrown (the `finally` runs), a data element is yielded;
* buffer empty with write gate locked: exit the loop, `finishRead`;
* buffer empty otherwise: close the read gate and suspend on
  `readGate.check()`. -/
def PushBuffer.readStep (s : PushBuffer T E) : ReadResult T E × PushBuffer T E :=
  if s.iterDone then (ReadResult.done, s)
  else
    let s0 : PushBuffer T E := { s with isIterating := true }
    if s0.readGate.isLocked then s0.finishRead
    else
      match s0.buffer with
      | v :: rest =>
        let s1 := ({ s0 with buffer := rest } : PushBuffer T E).updateWriteGate
        match v with
        | Sum.inr e => (ReadResult.throws e, s1.finalizeIter)
        | Sum.inl x => (ReadResult.yields x, s1)
      | [] =>
        if s0.writeGate.isLocked then s0.finishRead
        else (ReadResult.blocked, { s0 with readGate := s0.readGate.closeGate })

/-- `length` getter. -/
def PushBuffer.length (s : PushBuffer T E) : Nat :=
  s.buffer.length

/-- A sequence of `push()` calls issued back to back (no intervening reads),
collecting each call's promise status. -/
def PushBuffer.pushAll (s : PushBuffer T E) :
    List (T ⊕ E) → List PushResult × PushBuffer T E
  | [] => ([], s)
  | x :: xs =>
    let (r, s') := s.push x
    let (rs, s'') := s'.pushAll xs
    (r :: rs, s'')

/-! ## Basic gate and push lemmas -/

theorem Gate.isLocked_iff (g : Gate) :
    g.isLocked = true ↔ g.state = GateState.locked := by
  simp [Gate.isLocked]

theorem Gate.setOpenState_of_not_locked (g : Gate) (b : Bool)
    (h : g.isLocked = false) :
    g.setOpenState b = ⟨if b then GateState.opened else GateState.closed⟩ := by
  simp [Gate.setOpenState, h]

theorem PushBuffer.isWritable_iff (s : PushBuffer T E) :
    s.isWritable = true ↔
      s.writeGate.isLocked = false ∧ s.readGate.isLocked = false := by
  simp [PushBuffer.isWritable]

/-- Characterization of `push()` from a writable state: the item is appended,
the write gate reflects whether the buffer is still below capacity, the read
gate opens, and the returned promise is resolved true exactly when the new
length is still below `bufferSize` (otherwise it is pending). -/
theorem PushBuffer.push_writable (s : PushBuffer T E) (x : T ⊕ E)
    (h : s.isWritable = true) :
    s.push x =
      ((if s.buffer.length + 1 < s.bufferSize then PushResult.resolved true
        else PushResult.pending),
       { s with
          buffer := s.buffer ++ [x]
          writeGate :=
            ⟨if s.buffer.length + 1 < s.bufferSize then GateState.opened
              else GateState.closed⟩
          readGate := ⟨GateState.opened⟩ }) := by
  rcases (PushBuffer.isWritable_iff s).mp h with ⟨hw, hr⟩
  unfold PushBuffer.push
  rw [if_pos h]
  simp only [PushBuffer.updateWriteGate, PushBuffer.isFull, List.length_append,
    List.length_cons, List.length_nil, Gate.openGate,
    Gate.setOpenState_of_not_locked _ _ hw, Gate.setOpenState_of_not_locked _ _ hr]
  by_cases hlt : s.buffer.length + 1 < s.bufferSize
  · have : ¬ (s.buffer.length + 1 ≥ s.bufferSize) := by omega
    simp [hlt, this, Gate.checkNow]
  · have : s.buffer.length + 1 ≥ s.bufferSize := by omega
    simp [hlt, this, Gate.checkNow]

theorem PushBuffer.push_not_writable (s : PushBuffer T E) (x : T ⊕ E)
    (h : s.isWritable = false) :
    s.push x = (PushResult.notWritable, s) := by
  unfold PushBuffer.push
  simp [h]

/-- Expected result list for a run of back-to-back pushes starting from a
buffer holding `len` items: the i-th call resolves true while the buffer
stays strictly below capacity after it, and stays pending otherwise. -/
def expectedPushResults (len n k : Nat) : List PushResult :=
  (List.range k).map fun i =>
    if len + i + 1 < n then PushResult.resolved true else PushResult.pending

/-- `pushAll` from any writable state: every item is appended (none lost),
administrative fields are unchanged, the state stays writable, and each
call's promise follows `expectedPushResults`.  When at least one item is
pushed the read gate is open and the write gate is open exactly when the
buffer is still below capacity. -/
theorem PushBuffer.pushAll_writable (xs : List (T ⊕ E)) :
    ∀ s : PushBuffer T E, s.isWritable = true →
      (s.pushAll xs).2.buffer = s.buffer ++ xs ∧
      (s.pushAll xs).2.bufferSize = s.bufferSize ∧
      (s.pushAll xs).2.error = s.error ∧
      (s.pushAll xs).2.iterDone = s.iterDone ∧
      (s.pushAll xs).2.isIterating = s.isIterating ∧
      (s.pushAll xs).2.isWritable = true ∧
      (s.pushAll xs).1 = expectedPushResults s.buffer.length s.bufferSize xs.length ∧
      (xs ≠ [] →
        (s.pushAll xs).2.readGate = ⟨GateState.opened⟩ ∧
        (s.pushAll xs).2.writeGate =
          ⟨if s.buffer.length + xs.length < s.bufferSize then GateState.opened
            else GateState.closed⟩) := by
  induction xs with
  | nil =>
    intro s h
    simp [PushBuffer.pushAll, expectedPushResults, h]
  | cons x xs ih =>
    intro s h
    have hpush := PushBuffer.push_writable s x h
    set s1 : PushBuffer T E :=
      { s with
        buffer := s.buffer ++ [x]
        writeGate :=
          ⟨if s.buffer.length + 1 < s.bufferSize then GateState.opened
            else GateState.closed⟩
        readGate := ⟨GateState.opened⟩ } with hs1
    have h1 : s1.isWritable = true := by
      simp only [PushBuffer.isWritable, hs1, Gate.isLocked]
      split <;> simp
    have hrec := ih s1 h1
    have hstep : s.pushAll (x :: xs) =
        ((if s.buffer.length + 1 < s.bufferSize then PushResult.resolved true
          else PushResult.pending) :: (s1.pushAll xs).1, (s1.pushAll xs).2) := by
      simp [PushBuffer.pushAll, hpush]
    obtain ⟨hb, hn, he, hd, hi, hw, hres, hne⟩ := hrec
    rw [hstep]
    have hlen1 : s1.buffer.length = s.buffer.length + 1 := by
      simp [hs1]
    have hsz : s1.bufferSize = s.bufferSize := by simp [hs1]
    refine ⟨?_, by simpa [hsz] using hn, by simpa using he, by simpa using hd,
      by simpa using hi, hw, ?_, ?_⟩
    · simp only [hb, hs1]
      simp [List.append_assoc]
    · simp only [hres, hlen1, hsz, expectedPushResults, List.length_cons]
      rw [List.range_succ_eq_map]
      simp only [List.map_cons, List.map_map]
      refine congrArg₂ _ ?_ ?_
      · norm_num
      · apply List.map_congr_left
        intro i _
        simp only [Function.comp, Nat.succ_eq_add_one]
        have harith : s.buffer.length + 1 + i + 1 = s.buffer.length + (i + 1) + 1 := by
          omega
        rw [harith]
    · intro _
      rcases eq_or_ne xs [] with hxe | hxe
      · subst hxe
        simp only [PushBuffer.pushAll]
        constructor
        · simp [hs1]
        · simp [hs1]
      · obtain ⟨hrg, hwg⟩ := hne hxe
        refine ⟨hrg, ?_⟩
        rw [hwg]
        congr 1
        rw [hlen1, hsz]
        congr 1
        simp only [List.length_cons]
        congr 1
        omega

/-! ## Claim C1 -/

theorem PushBuffer.readStep_cons_inl (s : PushBuffer T E) (x : T)
    (rest : List (T ⊕ E)) (hdone : s.iterDone = false)
    (hrg : s.readGate.isLocked = false) (hbuf : s.buffer = Sum.inl x :: rest) :
    s.readStep =
      (ReadResult.yields x,
        ({ s with isIterating := true, buffer := rest } : PushBuffer T E).updateWriteGate) := by
  unfold PushBuffer.readStep
  simp [hdone, hrg, hbuf, PushBuffer.updateWriteGate, PushBuffer.isFull]

/-- The claim of C1 is false at a concrete input: with `bufferSize = 1`, a
single `push()` before any read — a push sequence whose count (1) does not
exceed `bufferSize` — does not resolve true: its promise is still pending
(the write gate closed because the buffer reached capacity), even though the
item was appended. -/
theorem claim_C1_counterexample :
    ((PushBuffer.new Nat Nat 1).pushAll [Sum.inl 0]).1 = [PushResult.pending] ∧
    [PushResult.pending] ≠ [PushResult.resolved true] ∧
    ((PushBuffer.new Nat Nat 1).pushAll [Sum.inl 0]).2.buffer = [Sum.inl 0] := by
  refine ⟨by decide, by decide, by decide⟩

/-- C1 (amended).  For every sequence of `push()` calls performed before any
read on a fresh `PushBuffer(n)` (`n ≥ 1`): every pushed item is appended to
the buffer in order (no item is lost); the i-th push resolves true exactly
when the buffer is still strictly below `bufferSize` after it (so the pushes
filling the buffer up to `bufferSize - 1` items resolve true, while the push
that reaches `bufferSize` — and every later one — stays pending); and when
exactly `bufferSize` items were pushed, the first read pops an item and
re-opens the write gate, so the pending push promise resolves true once a
read occurs. -/
theorem claim_C1_amended (T E : Type) (n : Nat) (hn : 1 ≤ n) (xs : List T) :
    ((PushBuffer.new T E n).pushAll (xs.map Sum.inl)).2.buffer = xs.map Sum.inl ∧
    ((PushBuffer.new T E n).pushAll (xs.map Sum.inl)).1 =
      (List.range xs.length).map
        (fun i => if i + 1 < n then PushResult.resolved true
                  else PushResult.pending) ∧
    (xs.length = n →
      ((((PushBuffer.new T E n).pushAll (xs.map Sum.inl)).2.readStep).2.writeGate.checkNow
        = some true)) := by
  have hw0 : (PushBuffer.new T E n).isWritable = true := by
    simp [PushBuffer.new, PushBuffer.isWritable, Gate.isLocked]
  obtain ⟨hb, hn', he, hd, hi, hw, hres, hne⟩ :=
    PushBuffer.pushAll_writable (xs.map Sum.inl) (PushBuffer.new T E n) hw0
  refine ⟨by simpa [PushBuffer.new] using hb, ?_, ?_⟩
  · rw [hres]
    simp only [expectedPushResults, PushBuffer.new, List.length_nil,
      List.length_map]
    apply List.map_congr_left
    intro i _
    simp
  · intro hlen
    have hxne : xs.map Sum.inl ≠ ([] : List (T ⊕ E)) := by
      intro hcon
      have : xs.length = 0 := by simpa using congrArg List.length hcon
      omega
    obtain ⟨hrg, hwg⟩ := hne hxne
    obtain ⟨y, rest, hxs⟩ : ∃ y rest, xs = y :: rest := by
      cases xs with
      | nil => simp at hlen; omega
      | cons y rest => exact ⟨y, rest, rfl⟩
    have hbuf : ((PushBuffer.new T E n).pushAll (xs.map Sum.inl)).2.buffer
        = Sum.inl y :: rest.map Sum.inl := by
      rw [hb, hxs]
      simp [PushBuffer.new]
    have hdone : ((PushBuffer.new T E n).pushAll (xs.map Sum.inl)).2.iterDone = false := by
      rw [hd]; rfl
    have hrl : ((PushBuffer.new T E n).pushAll (xs.map Sum.inl)).2.readGate.isLocked = false := by
      simp [hrg, Gate.isLocked]
    rw [PushBuffer.readStep_cons_inl _ y (rest.map Sum.inl) hdone hrl hbuf]
    have hsz : ((PushBuffer.new T E n).pushAll (xs.map Sum.inl)).2.bufferSize = n := by
      rw [hn']; rfl
    have hwc : ((PushBuffer.new T E n).pushAll (xs.map Sum.inl)).2.writeGate
        = ⟨GateState.closed⟩ := by
      rw [hwg]
      have hcond : ¬ ((PushBuffer.new T E n).buffer.length
          + (List.map (Sum.inl : T → T ⊕ E) xs).length < (PushBuffer.new T E n).bufferSize) := by
        simp [PushBuffer.new]
        omega
      rw [if_neg hcond]
    have hrest : (rest.map (Sum.inl : T → T ⊕ E)).length = n - 1 := by
      have : xs.length = rest.length + 1 := by rw [hxs]; simp
      simp only [List.length_map]
      omega
    simp only [PushBuffer.updateWriteGate, PushBuffer.isFull, hrest, hsz, hwc]
    have hnotfull : ¬ (n - 1 ≥ n) := by omega
    simp [hnotfull, Gate.setOpenState, Gate.isLocked, Gate.checkNow]

/-! ## Claim C2

`push()` appends its item before awaiting the write gate, so a producer that
does not await the returned promise can grow the buffer beyond `bufferSize`.
The amended invariant is proved over an explicit producer/consumer
scheduler: `Sys` pairs the buffer object with the two possible suspended
continuations (a producer awaiting `writeGate.check()`, a consumer suspended
inside `next()` on `readGate.check()`); gate transitions settle them. -/

structure Sys (T E : Type) : Type where
  pb : PushBuffer T E
  pendingWrite : Bool
  readerWaiting : Bool
  deriving DecidableEq

def Sys.init (T E : Type) (n : Nat) : Sys T E :=
  ⟨PushBuffer.new T E n, false, false⟩

/-- Resume a consumer suspended on `readGate.check()` as soon as the gate is
no longer closed: the generator continues its loop (`readStep`), completing
the pending `next()` unless it suspends again. -/
def Sys.settleReader (s : Sys T E) : Sys T E :=
  if s.readerWaiting && (s.pb.readGate.checkNow).isSome then
    let (r, pb') := s.pb.readStep
    { s with
        pb := pb'
        readerWaiting := match r with | ReadResult.blocked => true | _ => false }
  else s

/-- A producer promise awaiting `writeGate.check()` settles as soon as the
gate is no longer closed. -/
def Sys.settleWriter (s : Sys T E) : Sys T E :=
  { s with pendingWrite := s.pendingWrite && (s.pb.writeGate.checkNow).isNone }

def Sys.afterMutation (s : Sys T E) : Sys T E :=
  s.settleReader.settleWriter

inductive SysOp (T E : Type) : Type
  | push (x : T ⊕ E)
  | read
  | endWrite (e : Option E)
  | endBuf (e : Option E)

def Sys.step (s : Sys T E) : SysOp T E → Sys T E
  | SysOp.push x =>
    let (r, pb') := s.pb.push x
    Sys.afterMutation
      { s with
          pb := pb'
          pendingWrite :=
            s.pendingWrite || (match r with | PushResult.pending => true | _ => false) }
  | SysOp.read =>
    if s.readerWaiting then s
    else
      let (r, pb') := s.pb.readStep
      Sys.afterMutation
        { s with
            pb := pb'
            readerWaiting := match r with | ReadResult.blocked => true | _ => false }
  | SysOp.endWrite e => Sys.afterMutation { s with pb := s.pb.endWrite e }
  | SysOp.endBuf e => Sys.afterMutation { s with pb := s.pb.endBuf e }

def Sys.run (s : Sys T E) : List (SysOp T E) → Sys T E
  | [] => s
  | op :: ops => (s.step op).run ops

/-- An operation is legal for an awaiting producer when a `push` is only
issued after the previous push's promise has settled. -/
def legalOp (s : Sys T E) : SysOp T E → Bool
  | SysOp.push _ => !s.pendingWrite
  | _ => true

/-- A run in which the producer awaits each `push()` before issuing the
next one. -/
def awaitedRun (s : Sys T E) : List (SysOp T E) → Bool
  | [] => true
  | op :: ops => legalOp s op && awaitedRun (s.step op) ops

/-- Reachability invariant for awaited runs. -/
def SysInv (s : Sys T E) : Prop :=
  1 ≤ s.pb.bufferSize ∧
  s.pb.buffer.length ≤ s.pb.bufferSize ∧
  (s.pendingWrite = false →
    s.pb.buffer.length < s.pb.bufferSize ∨ s.pb.isWritable = false) ∧
  (s.pendingWrite = true → s.pb.writeGate.state = GateState.closed) ∧
  (s.readerWaiting = true → s.pb.readGate.state = GateState.closed) ∧
  (s.pb.writeGate.state = GateState.opened →
    s.pb.buffer.length < s.pb.bufferSize)

theorem Gate.isLocked_setOpenState (g : Gate) (b : Bool) :
    (g.setOpenState b).isLocked = g.isLocked := by
  unfold Gate.setOpenState
  by_cases h : g.isLocked
  · simp [h]
  · simp only [Bool.not_eq_true] at h
    simp only [h, Bool.false_eq_true, if_false]
    cases b <;> simp [Gate.isLocked]

theorem Gate.setOpenState_state_opened (g : Gate) (b : Bool)
    (h : (g.setOpenState b).state = GateState.opened) : b = true := by
  unfold Gate.setOpenState at h
  by_cases hl : g.isLocked
  · rw [if_pos hl] at h
    rw [Gate.isLocked_iff] at hl
    rw [hl] at h
    cases h
  · rw [if_neg hl] at h
    cases b
    · simp at h
    · rfl

theorem Gate.checkNow_isNone_state (g : Gate)
    (h : (g.checkNow).isNone = true) : g.state = GateState.closed := by
  cases hg : g.state <;> simp [Gate.checkNow, hg] at h ⊢

theorem PushBuffer.checkNow_some_cases (pb : PushBuffer T E)
    (h6 : pb.writeGate.state = GateState.opened →
      pb.buffer.length < pb.bufferSize) :
    ∀ b, pb.writeGate.checkNow = some b →
      (pb.buffer.length < pb.bufferSize ∨ pb.isWritable = false) := by
  intro b hsome
  cases hg : pb.writeGate.state with
  | opened => exact Or.inl (h6 hg)
  | closed => simp [Gate.checkNow, hg] at hsome
  | locked =>
    right
    simp [PushBuffer.isWritable, Gate.isLocked, hg]

theorem PushBuffer.push_bufferSize (s : PushBuffer T E) (x : T ⊕ E) :
    (s.push x).2.bufferSize = s.bufferSize := by
  unfold PushBuffer.push
  by_cases h : s.isWritable
  · simp only [h, if_true]
    split <;> simp [PushBuffer.updateWriteGate]
  · simp [h]

theorem Gate.setOpenState_state_locked (g : Gate) (b : Bool) :
    (g.setOpenState b).state = GateState.locked ↔ g.state = GateState.locked := by
  unfold Gate.setOpenState
  by_cases h : g.isLocked
  · simp [h]
  · rw [if_neg h]
    constructor
    · intro hc
      cases b <;> simp at hc
    · intro hc
      rw [Gate.isLocked_iff] at h
      exact absurd hc h

theorem PushBuffer.readStep_bufferSize (pb : PushBuffer T E) :
    (pb.readStep).2.bufferSize = pb.bufferSize := by
  unfold PushBuffer.readStep PushBuffer.finishRead PushBuffer.finalizeIter
    PushBuffer.lockBoth PushBuffer.updateWriteGate
  simp only []
  repeat' split
  all_goals rfl

theorem PushBuffer.readStep_length_le (pb : PushBuffer T E) :
    (pb.readStep).2.buffer.length ≤ pb.buffer.length := by
  unfold PushBuffer.readStep PushBuffer.finishRead PushBuffer.finalizeIter
    PushBuffer.lockBoth PushBuffer.updateWriteGate
  simp only []
  repeat' split
  all_goals simp_all

theorem PushBuffer.readStep_writable_mono (pb : PushBuffer T E)
    (h : (pb.readStep).2.isWritable = true) : pb.isWritable = true := by
  revert h
  unfold PushBuffer.readStep PushBuffer.finishRead PushBuffer.finalizeIter
    PushBuffer.lockBoth PushBuffer.updateWriteGate
  simp only []
  repeat' split
  all_goals intro h
  all_goals first
    | exact h
    | (simp [PushBuffer.isWritable, Gate.isLocked, Gate.lockGate] at h; done)
    | (simp only [PushBuffer.isWritable, Gate.isLocked, Gate.closeGate,
        Gate.setOpenState_state_locked, Bool.and_eq_true, Bool.not_eq_true',
        decide_eq_false_iff_not] at h ⊢; exact h)

theorem PushBuffer.readStep_writeGate_opened (pb : PushBuffer T E)
    (h6 : pb.writeGate.state = GateState.opened →
      pb.buffer.length < pb.bufferSize)
    (h : (pb.readStep).2.writeGate.state = GateState.opened) :
    (pb.readStep).2.buffer.length < pb.bufferSize := by
  revert h
  unfold PushBuffer.readStep PushBuffer.finishRead PushBuffer.finalizeIter
    PushBuffer.lockBoth PushBuffer.updateWriteGate
  simp only []
  repeat' split
  all_goals intro h
  all_goals first
    | exact h6 h
    | (simp [Gate.lockGate] at h; done)
    | (have hb := Gate.setOpenState_state_opened _ _ h;
       simp only [PushBuffer.isFull, Bool.not_eq_true', decide_eq_false_iff_not,
         ge_iff_le, not_le] at hb;
       simpa using hb)

theorem PushBuffer.readStep_blocked_readGate (pb : PushBuffer T E)
    (h : (pb.readStep).1 = ReadResult.blocked) :
    (pb.readStep).2.readGate.state = GateState.closed := by
  revert h
  unfold PushBuffer.readStep PushBuffer.finishRead PushBuffer.finalizeIter
    PushBuffer.lockBoth PushBuffer.updateWriteGate
  simp only []
  repeat' split
  all_goals intro h
  all_goals (simp at h)
  all_goals simp_all [Gate.closeGate, Gate.setOpenState]

theorem Sys.afterMutation_inv (s : Sys T E)
    (h1 : 1 ≤ s.pb.bufferSize)
    (h2 : s.pb.buffer.length ≤ s.pb.bufferSize)
    (h6 : s.pb.writeGate.state = GateState.opened →
      s.pb.buffer.length < s.pb.bufferSize)
    (h3m : s.pendingWrite = false →
      s.pb.buffer.length < s.pb.bufferSize ∨ s.pb.isWritable = false) :
    SysInv s.afterMutation := by
  unfold Sys.afterMutation Sys.settleReader Sys.settleWriter SysInv
  by_cases htrig : (s.readerWaiting && (s.pb.readGate.checkNow).isSome) = true
  · rcases hstep : s.pb.readStep with ⟨r0, pb0⟩
    rw [if_pos htrig]
    dsimp only
    have hsz : pb0.bufferSize = s.pb.bufferSize := by
      have := PushBuffer.readStep_bufferSize s.pb
      rw [hstep] at this
      exact this
    have hlen : pb0.buffer.length ≤ s.pb.buffer.length := by
      have := PushBuffer.readStep_length_le s.pb
      rw [hstep] at this
      exact this
    have hmono : pb0.isWritable = true → s.pb.isWritable = true := by
      intro h
      exact PushBuffer.readStep_writable_mono s.pb (by rw [hstep]; exact h)
    have hop : pb0.writeGate.state = GateState.opened →
        pb0.buffer.length < pb0.bufferSize := by
      intro h
      have := PushBuffer.readStep_writeGate_opened s.pb h6 (by rw [hstep]; exact h)
      rw [hstep] at this
      dsimp only at this
      omega
    have hblk : r0 = ReadResult.blocked → pb0.readGate.state = GateState.closed := by
      intro h
      have := PushBuffer.readStep_blocked_readGate s.pb (by rw [hstep, h])
      rw [hstep] at this
      exact this
    refine ⟨by omega, by omega, ?_, ?_, ?_, hop⟩
    · intro hpw
      rcases Bool.and_eq_false_iff.mp hpw with hp | hn
      · rcases h3m hp with hlt | hnw
        · left
          omega
        · by_cases hw0 : pb0.isWritable = true
          · exact absurd (hmono hw0) (by simp [hnw])
          · right
            simpa using hw0
      · obtain ⟨b, hb⟩ : ∃ b, pb0.writeGate.checkNow = some b := by
          cases hcc : pb0.writeGate.checkNow with
          | none => rw [hcc] at hn; simp at hn
          | some b => exact ⟨b, rfl⟩
        exact PushBuffer.checkNow_some_cases pb0 hop b hb
    · intro hpw
      simp only [Bool.and_eq_true] at hpw
      exact Gate.checkNow_isNone_state _ hpw.2
    · intro hrw
      cases r0 with
      | blocked => exact hblk rfl
      | yields x => simp at hrw
      | throws e => simp at hrw
      | done => simp at hrw
  · rw [if_neg htrig]
    rw [Bool.not_eq_true] at htrig
    dsimp only
    refine ⟨h1, h2, ?_, ?_, ?_, h6⟩
    · intro hpw
      rcases Bool.and_eq_false_iff.mp hpw with hp | hn
      · exact h3m hp
      · obtain ⟨b, hb⟩ : ∃ b, s.pb.writeGate.checkNow = some b := by
          cases hcc : s.pb.writeGate.checkNow with
          | none => rw [hcc] at hn; simp at hn
          | some b => exact ⟨b, rfl⟩
        exact PushBuffer.checkNow_some_cases s.pb h6 b hb
    · intro hpw
      simp only [Bool.and_eq_true] at hpw
      exact Gate.checkNow_isNone_state _ hpw.2
    · intro hrw
      rw [hrw] at htrig
      simp only [Bool.true_and] at htrig
      cases hg : s.pb.readGate.state <;>
        simp [Gate.checkNow, hg] at htrig ⊢

theorem PushBuffer.endWrite_fields (s : PushBuffer T E) (e : Option E) :
    (s.endWrite e).buffer = s.buffer ∧ (s.endWrite e).bufferSize = s.bufferSize ∧
    (s.endWrite e).writeGate = ⟨GateState.locked⟩ := by
  unfold PushBuffer.endWrite Gate.lockGate
  cases e
  · exact ⟨rfl, rfl, rfl⟩
  · dsimp only
    split <;> exact ⟨rfl, rfl, rfl⟩

theorem PushBuffer.endBuf_fields (s : PushBuffer T E) (e : Option E) :
    (s.endBuf e).buffer = s.buffer ∧ (s.endBuf e).bufferSize = s.bufferSize ∧
    (s.endBuf e).writeGate = ⟨GateState.locked⟩ ∧
    (s.endBuf e).readGate = ⟨GateState.locked⟩ := by
  unfold PushBuffer.endBuf PushBuffer.lockBoth Gate.lockGate
  cases e <;> exact ⟨rfl, rfl, rfl, rfl⟩

theorem Sys.step_inv (s : Sys T E) (op : SysOp T E)
    (hinv : SysInv s) (hleg : legalOp s op = true) : SysInv (s.step op) := by
  obtain ⟨I1, I2, I3, I4, I5, I6⟩ := hinv
  cases op with
  | push x =>
    have hpw : s.pendingWrite = false := by
      simpa [legalOp] using hleg
    by_cases hw : s.pb.isWritable = true
    · have hlt : s.pb.buffer.length < s.pb.bufferSize := by
        rcases I3 hpw with h | h
        · exact h
        · rw [hw] at h
          cases h
      unfold Sys.step
      dsimp only
      rw [PushBuffer.push_writable s.pb x hw]
      dsimp only
      by_cases hfull : s.pb.buffer.length + 1 < s.pb.bufferSize
      · simp only [if_pos hfull]
        apply Sys.afterMutation_inv
        · exact I1
        · dsimp only
          simp only [List.length_append, List.length_cons, List.length_nil]
          omega
        · dsimp only
          intro _
          simp only [List.length_append, List.length_cons, List.length_nil]
          omega
        · dsimp only
          intro _
          left
          simp only [List.length_append, List.length_cons, List.length_nil]
          omega
      · simp only [if_neg hfull]
        apply Sys.afterMutation_inv
        · exact I1
        · dsimp only
          simp only [List.length_append, List.length_cons, List.length_nil]
          omega
        · dsimp only
          intro h
          cases h
        · dsimp only
          simp only [hpw, Bool.false_or]
          intro h
          cases h
    · unfold Sys.step
      dsimp only
      rw [PushBuffer.push_not_writable s.pb x (by simpa using hw)]
      dsimp only
      apply Sys.afterMutation_inv
      · exact I1
      · exact I2
      · exact I6
      · dsimp only
        simp only [Bool.or_false]
        exact I3
  | read =>
    unfold Sys.step
    dsimp only
    by_cases hrw : s.readerWaiting = true
    · rw [if_pos hrw]
      exact ⟨I1, I2, I3, I4, I5, I6⟩
    · rw [if_neg hrw]
      rcases hstep : s.pb.readStep with ⟨r0, pb0⟩
      dsimp only
      have hsz : pb0.bufferSize = s.pb.bufferSize := by
        have := PushBuffer.readStep_bufferSize s.pb
        rw [hstep] at this
        exact this
      have hlen : pb0.buffer.length ≤ s.pb.buffer.length := by
        have := PushBuffer.readStep_length_le s.pb
        rw [hstep] at this
        exact this
      have hmono : pb0.isWritable = true → s.pb.isWritable = true := by
        intro h
        exact PushBuffer.readStep_writable_mono s.pb (by rw [hstep]; exact h)
      have hop : pb0.writeGate.state = GateState.opened →
          pb0.buffer.length < pb0.bufferSize := by
        intro h
        have := PushBuffer.readStep_writeGate_opened s.pb I6 (by rw [hstep]; exact h)
        rw [hstep] at this
        dsimp only at this
        omega
      apply Sys.afterMutation_inv
      · dsimp only
        omega
      · dsimp only
        omega
      · dsimp only
        exact hop
      · dsimp only
        intro hpw
        rcases I3 hpw with h | h
        · left
          omega
        · by_cases hw0 : pb0.isWritable = true
          · exact absurd (hmono hw0) (by simp [h])
          · right
            simpa using hw0
  | endWrite e =>
    obtain ⟨hb, hn, hwg⟩ := PushBuffer.endWrite_fields s.pb e
    have hbl : (s.pb.endWrite e).buffer.length = s.pb.buffer.length := by rw [hb]
    unfold Sys.step
    dsimp only
    apply Sys.afterMutation_inv
    · dsimp only
      omega
    · dsimp only
      omega
    · dsimp only
      rw [hwg]
      intro h
      cases h
    · dsimp only
      intro _
      right
      simp [PushBuffer.isWritable, hwg, Gate.isLocked]
  | endBuf e =>
    obtain ⟨hb, hn, hwg, hrg⟩ := PushBuffer.endBuf_fields s.pb e
    have hbl : (s.pb.endBuf e).buffer.length = s.pb.buffer.length := by rw [hb]
    unfold Sys.step
    dsimp only
    apply Sys.afterMutation_inv
    · dsimp only
      omega
    · dsimp only
      omega
    · dsimp only
      rw [hwg]
      intro h
      cases h
    · dsimp only
      intro _
      right
      simp [PushBuffer.isWritable, hwg, Gate.isLocked]

theorem Sys.run_inv (ops : List (SysOp T E)) :
    ∀ s : Sys T E, SysInv s → awaitedRun s ops = true → SysInv (s.run ops) := by
  induction ops with
  | nil =>
    intro s hinv _
    exact hinv
  | cons op ops ih =>
    intro s hinv hrun
    unfold awaitedRun at hrun
    rw [Bool.and_eq_true] at hrun
    exact ih (s.step op) (Sys.step_inv s op hinv hrun.1) hrun.2

theorem Sys.afterMutation_bufferSize (s : Sys T E) :
    (s.afterMutation).pb.bufferSize = s.pb.bufferSize := by
  unfold Sys.afterMutation Sys.settleReader Sys.settleWriter
  by_cases htrig : (s.readerWaiting && (s.pb.readGate.checkNow).isSome) = true
  · rcases hstep : s.pb.readStep with ⟨r0, pb0⟩
    rw [if_pos htrig]
    dsimp only
    have := PushBuffer.readStep_bufferSize s.pb
    rw [hstep] at this
    exact this
  · rw [if_neg htrig]

theorem Sys.step_bufferSize (s : Sys T E) (op : SysOp T E) :
    (s.step op).pb.bufferSize = s.pb.bufferSize := by
  cases op with
  | push x =>
    unfold Sys.step
    dsimp only
    rcases hp : s.pb.push x with ⟨r0, pb0⟩
    dsimp only
    rw [Sys.afterMutation_bufferSize]
    have := PushBuffer.push_bufferSize s.pb x
    rw [hp] at this
    exact this
  | read =>
    unfold Sys.step
    dsimp only
    by_cases hrw : s.readerWaiting = true
    · rw [if_pos hrw]
    · rw [if_neg hrw]
      rcases hstep : s.pb.readStep with ⟨r0, pb0⟩
      dsimp only
      rw [Sys.afterMutation_bufferSize]
      have := PushBuffer.readStep_bufferSize s.pb
      rw [hstep] at this
      exact this
  | endWrite e =>
    unfold Sys.step
    dsimp only
    rw [Sys.afterMutation_bufferSize]
    exact (PushBuffer.endWrite_fields s.pb e).2.1
  | endBuf e =>
    unfold Sys.step
    dsimp only
    rw [Sys.afterMutation_bufferSize]
    exact (PushBuffer.endBuf_fields s.pb e).2.1

theorem Sys.run_bufferSize (ops : List (SysOp T E)) :
    ∀ s : Sys T E, (s.run ops).pb.bufferSize = s.pb.bufferSize := by
  induction ops with
  | nil => intro s; rfl
  | cons op ops ih =>
    intro s
    unfold Sys.run
    rw [ih, Sys.step_bufferSize]

theorem Sys.init_inv (T E : Type) (n : Nat) (hn : 1 ≤ n) :
    SysInv (Sys.init T E n) := by
  refine ⟨hn, ?_, ?_, ?_, ?_, ?_⟩
  · simp [Sys.init, PushBuffer.new]
  · intro _
    left
    simp only [Sys.init, PushBuffer.new, List.length_nil]
    omega
  · intro h
    simp [Sys.init] at h
  · intro h
    simp [Sys.init] at h
  · intro h
    simp [Sys.init, PushBuffer.new] at h

/-! ### Claim C2 theorems -/

/-- The claim of C2 is false at a concrete input: starting from a fresh
`PushBuffer(1)`, a producer that issues a second `push()` without awaiting
the first push's promise reaches a state that is still writable yet holds 2
buffered unread items, exceeding `bufferSize = 1`. -/
theorem claim_C2_counterexample :
    ((Sys.init Nat Nat 1).run [SysOp.push (Sum.inl 0), SysOp.push (Sum.inl 1)]).pb.buffer.length = 2 ∧
    ((Sys.init Nat Nat 1).run [SysOp.push (Sum.inl 0), SysOp.push (Sum.inl 1)]).pb.bufferSize = 1 ∧
    ((Sys.init Nat Nat 1).run [SysOp.push (Sum.inl 0), SysOp.push (Sum.inl 1)]).pb.isWritable = true := by
  refine ⟨by decide, by decide, by decide⟩

/-- C2 (amended).  The bound `buffered length ≤ bufferSize` holds for every
state reached by a run of push/read/endWrite/end operations in which the
producer awaits each push's promise before issuing the next push
(`awaitedRun`).  Without that awaiting discipline the bound can be exceeded,
because `push()` appends its item before suspending on the write gate. -/
theorem claim_C2_amended (T E : Type) (n : Nat) (hn : 1 ≤ n)
    (ops : List (SysOp T E)) (hrun : awaitedRun (Sys.init T E n) ops = true) :
    ((Sys.init T E n).run ops).pb.buffer.length ≤ n ∧
    ((Sys.init T E n).run ops).pb.bufferSize = n := by
  have hinv := Sys.run_inv ops (Sys.init T E n) (Sys.init_inv T E n hn) hrun
  have hsz : ((Sys.init T E n).run ops).pb.bufferSize = n := by
    rw [Sys.run_bufferSize]
    rfl
  refine ⟨?_, hsz⟩
  have h2 := hinv.2.1
  omega

/-- Witness for C2 (amended) at a concrete instance: buffer size 2, an
awaited run pushing, reading, and pushing again. -/
theorem claim_C2_witness :
    ((Sys.init Nat Nat 2).run
        [SysOp.push (Sum.inl 5), SysOp.read, SysOp.push (Sum.inl 6)]).pb.buffer.length ≤ 2 ∧
    ((Sys.init Nat Nat 2).run
        [SysOp.push (Sum.inl 5), SysOp.read, SysOp.push (Sum.inl 6)]).pb.bufferSize = 2 :=
  claim_C2_amended Nat Nat 2 (by decide)
    [SysOp.push (Sum.inl 5), SysOp.read, SysOp.push (Sum.inl 6)] (by decide)

/-- Witness for C1 (amended) at buffer size 2 with two pushed items. -/
theorem claim_C1_witness :
    ((PushBuffer.new Nat Nat 2).pushAll ([7, 8].map Sum.inl)).2.buffer
        = [7, 8].map Sum.inl ∧
    ((((PushBuffer.new Nat Nat 2).pushAll ([7, 8].map Sum.inl)).2.readStep).2.writeGate.checkNow
        = some true) :=
  ⟨(claim_C1_amended Nat Nat 2 (by decide) [7, 8]).1,
   (claim_C1_amended Nat Nat 2 (by decide) [7, 8]).2.2 (by decide)⟩

/-! ## Claim C3 -/

theorem PushBuffer.readStep_done (s : PushBuffer T E) (h : s.iterDone = true) :
    s.readStep = (ReadResult.done, s) := by
  unfold PushBuffer.readStep
  rw [if_pos h]

/-- C3 (confirmed).  After `end(err)` on a buffer whose iterator has not yet
finished, the next read attempt throws `err` (and not any buffered item:
the buffer is discarded, not delivered), the stored error is cleared so the
error is delivered exactly once, and every subsequent read yields completion
(`done`) with the state unchanged. -/
theorem claim_C3 (T E : Type) (s : PushBuffer T E) (e : E)
    (hdone : s.iterDone = false) :
    ((s.endBuf (some e)).readStep).1 = ReadResult.throws e ∧
    ((s.endBuf (some e)).readStep).2.buffer = [] ∧
    ((s.endBuf (some e)).readStep).2.error = none ∧
    (((s.endBuf (some e)).readStep).2.readStep
      = (ReadResult.done, ((s.endBuf (some e)).readStep).2)) := by
  have hstep : (s.endBuf (some e)).readStep =
      (ReadResult.throws e,
        { buffer := [], bufferSize := s.bufferSize,
          writeGate := ⟨GateState.locked⟩, readGate := ⟨GateState.locked⟩,
          error := none, isIterating := true, iterDone := true }) := by
    unfold PushBuffer.endBuf PushBuffer.lockBoth PushBuffer.readStep
      PushBuffer.finishRead PushBuffer.finalizeIter Gate.lockGate
    simp [hdone, Gate.isLocked, PushBuffer.lockBoth, Gate.lockGate]
  rw [hstep]
  refine ⟨rfl, rfl, rfl, ?_⟩
  exact PushBuffer.readStep_done _ rfl

/-- Witness for C3 at a concrete input: buffer size 4 holding one unread
item, ended with error 9. -/
theorem claim_C3_witness :
    ((((PushBuffer.new Nat Nat 4).pushAll [Sum.inl 1]).2.endBuf (some 9)).readStep).1
        = ReadResult.throws 9 ∧
    ((((PushBuffer.new Nat Nat 4).pushAll [Sum.inl 1]).2.endBuf (some 9)).readStep).2.buffer
        = [] ∧
    ((((PushBuffer.new Nat Nat 4).pushAll [Sum.inl 1]).2.endBuf (some 9)).readStep).2.error
        = none ∧
    (((((PushBuffer.new Nat Nat 4).pushAll [Sum.inl 1]).2.endBuf (some 9)).readStep).2.readStep
      = (ReadResult.done,
        ((((PushBuffer.new Nat Nat 4).pushAll [Sum.inl 1]).2.endBuf (some 9)).readStep).2)) :=
  claim_C3 Nat Nat ((PushBuffer.new Nat Nat 4).pushAll [Sum.inl 1]).2 9 (by decide)

/-! ## Claim C10 -/

/-- `return()` called after iteration has started: `end()` then the
generator resumes directly into its `finally` block. -/
def PushBuffer.doReturn (s : PushBuffer T E) : PushBuffer T E :=
  (s.endBuf none).finalizeIter

theorem PushBuffer.push_of_isDone (s : PushBuffer T E) (h : s.isDone = true)
    (x : T ⊕ E) : s.push x = (PushResult.notWritable, s) := by
  apply PushBuffer.push_not_writable
  unfold PushBuffer.isDone at h
  rw [Bool.and_eq_true] at h
  unfold PushBuffer.isWritable
  simp [h.1]

theorem PushBuffer.readStep_throws_final (s : PushBuffer T E)
    (hdone : s.iterDone = false) (e : E) (s' : PushBuffer T E)
    (h : s.readStep = (ReadResult.throws e, s')) :
    s'.isDone = true ∧ s'.buffer = [] ∧ s'.iterDone = true := by
  revert h
  unfold PushBuffer.readStep PushBuffer.finishRead PushBuffer.finalizeIter
    PushBuffer.lockBoth PushBuffer.updateWriteGate Gate.lockGate
  simp only []
  repeat' split
  all_goals intro h
  all_goals try (exfalso; simp_all; done)
  all_goals injection h with h1 h2
  all_goals subst h2
  all_goals simp [PushBuffer.isDone, Gate.isLocked]

theorem PushBuffer.readStep_done_final (s : PushBuffer T E)
    (hdone : s.iterDone = false) (s' : PushBuffer T E)
    (h : s.readStep = (ReadResult.done, s')) :
    s'.isDone = true ∧ s'.buffer = [] ∧ s'.iterDone = true := by
  revert h
  unfold PushBuffer.readStep PushBuffer.finishRead PushBuffer.finalizeIter
    PushBuffer.lockBoth PushBuffer.updateWriteGate Gate.lockGate
  simp only []
  repeat' split
  all_goals intro h
  all_goals try (exfalso; simp_all; done)
  all_goals injection h with h1 h2
  all_goals subst h2
  all_goals simp [PushBuffer.isDone, Gate.isLocked]

/-- The claim of C10 is false at a concrete input: after two pushes into a
fresh `PushBuffer(4)` followed by `end()` (one of the claim's listed
termination reasons, with no read ever issued), `isDone()` is already true
but the buffer still holds the 2 unread items, so `length` is 2, not 0
(they are discarded only at the next read attempt). -/
theorem claim_C10_counterexample :
    (((PushBuffer.new Nat Nat 4).pushAll [Sum.inl 0, Sum.inl 1]).2.endBuf none).isDone
        = true ∧
    (((PushBuffer.new Nat Nat 4).pushAll [Sum.inl 0, Sum.inl 1]).2.endBuf none).length
        = 2 ∧
    (2 : Nat) ≠ 0 := by
  refine ⟨by decide, by decide, by decide⟩

/-- C10 (amended).  Once the `iterate()` generator actually finishes — a
read attempt returns completion or throws (covering natural completion,
`end()`, `endWrite()` and buffered-error termination), or `return()` is
called after iteration started — the buffer is finalized: `isDone()` is
true, `length` is 0, and every subsequent `push()` returns false without
appending.  (After `end()` alone, with no subsequent read, both gates are
locked and pushes return false, but the unread items stay in the buffer
until the next read attempt discards them.) -/
theorem claim_C10_amended (T E : Type) :
    (∀ (s : PushBuffer T E) (e : E) (s' : PushBuffer T E),
      s.iterDone = false → s.readStep = (ReadResult.throws e, s') →
        s'.isDone = true ∧ s'.length = 0 ∧
        ∀ x, s'.push x = (PushResult.notWritable, s')) ∧
    (∀ (s s' : PushBuffer T E),
      s.iterDone = false → s.readStep = (ReadResult.done, s') →
        s'.isDone = true ∧ s'.length = 0 ∧
        ∀ x, s'.push x = (PushResult.notWritable, s')) ∧
    (∀ s : PushBuffer T E,
      (s.doReturn).isDone = true ∧ (s.doReturn).length = 0 ∧
      ∀ x, (s.doReturn).push x = (PushResult.notWritable, s.doReturn)) := by
  refine ⟨?_, ?_, ?_⟩
  · intro s e s' hdone h
    obtain ⟨h1, h2, _⟩ := PushBuffer.readStep_throws_final s hdone e s' h
    exact ⟨h1, by simp [PushBuffer.length, h2],
      fun x => PushBuffer.push_of_isDone s' h1 x⟩
  · intro s s' hdone h
    obtain ⟨h1, h2, _⟩ := PushBuffer.readStep_done_final s hdone s' h
    exact ⟨h1, by simp [PushBuffer.length, h2],
      fun x => PushBuffer.push_of_isDone s' h1 x⟩
  · intro s
    have h1 : (s.doReturn).isDone = true := by
      unfold PushBuffer.doReturn PushBuffer.finalizeIter PushBuffer.lockBoth
      simp [PushBuffer.isDone, Gate.isLocked, Gate.lockGate]
    refine ⟨h1, ?_, fun x => PushBuffer.push_of_isDone _ h1 x⟩
    unfold PushBuffer.doReturn PushBuffer.finalizeIter PushBuffer.lockBoth
    simp [PushBuffer.length]

/-- Witness for C10 (amended): a fresh `PushBuffer(4)` with one item, ended
with an error, then read (which throws); and the `doReturn` clause at the
same buffer. -/
theorem claim_C10_witness :
    ((((PushBuffer.new Nat Nat 4).pushAll [Sum.inl 3]).2.endBuf (some 9)).readStep).2.isDone
        = true ∧
    ((((PushBuffer.new Nat Nat 4).pushAll [Sum.inl 3]).2.endBuf (some 9)).readStep).2.length
        = 0 ∧
    ((((PushBuffer.new Nat Nat 4).pushAll [Sum.inl 3]).2.doReturn).isDone = true) :=
  ⟨((claim_C10_amended Nat Nat).1
      ((((PushBuffer.new Nat Nat 4).pushAll [Sum.inl 3]).2.endBuf (some 9))) 9
      (((((PushBuffer.new Nat Nat 4).pushAll [Sum.inl 3]).2.endBuf (some 9))).readStep).2
      (by decide) (by decide)).1,
   ((claim_C10_amended Nat Nat).1
      ((((PushBuffer.new Nat Nat 4).pushAll [Sum.inl 3]).2.endBuf (some 9))) 9
      (((((PushBuffer.new Nat Nat 4).pushAll [Sum.inl 3]).2.endBuf (some 9))).readStep).2
      (by decide) (by decide)).2.1,
   ((claim_C10_amended Nat Nat).2.2 (((PushBuffer.new Nat Nat 4).pushAll [Sum.inl 3]).2)).1⟩

/-! ## Claim C4: idempotent teardown

`Pipeline.cleanup` is wrapped with `pOnce` (src/unnamed/part_002, lines
68-138) in the Pipeline constructor; the cleanup body triggers
`onBeforeFinally` then `onFinally`; `Pipeline.iterate`/`throw`/`return`
additionally trigger `onBeforeFinally` guarded by
`if (!this.onBeforeFinally.triggerCount)`.

`pOnce` keeps a `CallStatus` (init / pending / fulfilled / rejected); a call
in state `init` runs the wrapped function exactly once and moves to
pending-then-settled; calls in any other state return the cached
promise/value and never run the function again (no `reset()` is ever called
on the cleanup wrapper).  `POnceStatus`/`pOnceStep` embed that state
machine; `execCount` counts executions of the wrapped function.

The `Signal` class (`./Signal`) is not part of the repository snapshot.
Modelled from the spec: `Signal.once` fires its listeners on the first
trigger only ("fires once -- only the first trigger wins");
`triggerCount` counts triggers, `firedCount` counts listener firings. -/

inductive POnceStatus (R E : Type) : Type
  | init
  | pending
  | fulfilled (v : R)
  | rejected (e : E)
  deriving DecidableEq

structure POnceState (R E : Type) : Type where
  status : POnceStatus R E
  execCount : Nat
  deriving DecidableEq

inductive POnceEvent (R E : Type) : Type
  | call
  | settle (out : R ⊕ E)
  deriving DecidableEq

/-- One event against a `pOnce` wrapper: a `call` in state `init` starts the
single execution of the wrapped function (moving to `pending`); calls in
any other state return the cached promise/value without executing; a
`settle` records the eventual outcome of the pending execution. -/
def pOnceStep (s : POnceState R E) : POnceEvent R E → POnceState R E
  | POnceEvent.call =>
    match s.status with
    | POnceStatus.init =>
      { status := POnceStatus.pending, execCount := s.execCount + 1 }
    | _ => s
  | POnceEvent.settle out =>
    match s.status with
    | POnceStatus.pending =>
      { s with
          status :=
            match out with
            | Sum.inl v => POnceStatus.fulfilled v
            | Sum.inr e => POnceStatus.rejected e }
    | _ => s

/-- Modelled from the spec: a fire-once signal. -/
structure SignalOnce : Type where
  triggerCount : Nat
  firedCount : Nat
  deriving DecidableEq

def SignalOnce.trigger (g : SignalOnce) : SignalOnce :=
  if g.triggerCount = 0 then ⟨g.triggerCount + 1, g.firedCount + 1⟩
  else { g with triggerCount := g.triggerCount + 1 }

/-- Teardown-relevant state of one Pipeline: the pOnce-wrapped `cleanup`
and the two once-signals. -/
structure TeardownState : Type where
  cleanup : POnceState Unit Unit
  onBeforeFinally : SignalOnce
  onFinally : SignalOnce
  deriving DecidableEq

inductive TeardownEvent : Type
  | cleanupInvoke
  | guardedBeforeFinally
  deriving DecidableEq

def teardownInit : TeardownState :=
  ⟨⟨POnceStatus.init, 0⟩, ⟨0, 0⟩, ⟨0, 0⟩⟩

/-- One teardown trigger.  `cleanupInvoke` models any of the concurrent
paths that invoke the pOnce-wrapped `cleanup` (iteratorFinally on natural
completion, `return()`, `throw()`, upstream error): in state `init` the
wrapped body runs (once) -- triggering `onBeforeFinally` then `onFinally`
-- and the wrapper settles; in any other state the call is absorbed by
`pOnce` and the body does not run again.  `guardedBeforeFinally` models the
`if (!this.onBeforeFinally.triggerCount) await this.onBeforeFinally.trigger()`
sites in `iterate`/`throw`/`return`. -/
def teardownStep (s : TeardownState) : TeardownEvent → TeardownState
  | TeardownEvent.cleanupInvoke =>
    match s.cleanup.status with
    | POnceStatus.init =>
      { cleanup := ⟨POnceStatus.fulfilled (), s.cleanup.execCount + 1⟩
        onBeforeFinally := s.onBeforeFinally.trigger
        onFinally := s.onFinally.trigger }
    | _ => { s with cleanup := pOnceStep s.cleanup POnceEvent.call }
  | TeardownEvent.guardedBeforeFinally =>
    if s.onBeforeFinally.triggerCount = 0 then
      { s with onBeforeFinally := s.onBeforeFinally.trigger }
    else s

def teardownRun (s : TeardownState) : List TeardownEvent → TeardownState
  | [] => s
  | e :: evs => teardownRun (teardownStep s e) evs

/-- After the first cleanup invocation: the wrapped body ran exactly once
and both signals fired exactly once. -/
def TeardownDone (s : TeardownState) : Prop :=
  s.cleanup.status ≠ POnceStatus.init ∧
  s.cleanup.execCount = 1 ∧
  s.onFinally.firedCount = 1 ∧
  s.onBeforeFinally.firedCount = 1 ∧
  1 ≤ s.onBeforeFinally.triggerCount

/-- Before the first cleanup invocation: nothing has executed, `onFinally`
untouched, `onBeforeFinally` fired iff some guarded trigger ran. -/
def TeardownInv (s : TeardownState) : Prop :=
  (s.cleanup.status = POnceStatus.init ∧ s.cleanup.execCount = 0 ∧
    s.onFinally.firedCount = 0 ∧ s.onFinally.triggerCount = 0 ∧
    s.onBeforeFinally.firedCount =
      (if s.onBeforeFinally.triggerCount = 0 then 0 else 1)) ∨
  TeardownDone s

theorem teardownStep_inv (s : TeardownState) (e : TeardownEvent)
    (h : TeardownInv s) : TeardownInv (teardownStep s e) := by
  cases e with
  | cleanupInvoke =>
    rcases h with ⟨h1, h2, h3, h4, h5⟩ | hdone
    · right
      unfold teardownStep
      rw [h1]
      refine ⟨by simp, by simp [h2], ?_, ?_, ?_⟩
      · simp [SignalOnce.trigger, h4, h3]
      · simp only [SignalOnce.trigger]
        by_cases h0 : s.onBeforeFinally.triggerCount = 0
        · simp [h0, h5]
        · simp only [h0, if_false]
          rw [h5, if_neg h0]
      · simp only [SignalOnce.trigger]
        by_cases h0 : s.onBeforeFinally.triggerCount = 0 <;> simp [h0]
    · right
      obtain ⟨hs, h2, h3, h4, h5⟩ := hdone
      unfold teardownStep
      cases hc : s.cleanup.status with
      | init => exact absurd hc hs
      | pending => exact ⟨by simp [pOnceStep, hc], by simp [pOnceStep, hc, h2], h3, h4, h5⟩
      | fulfilled v => exact ⟨by simp [pOnceStep, hc], by simp [pOnceStep, hc, h2], h3, h4, h5⟩
      | rejected e => exact ⟨by simp [pOnceStep, hc], by simp [pOnceStep, hc, h2], h3, h4, h5⟩
  | guardedBeforeFinally =>
    rcases h with ⟨h1, h2, h3, h4, h5⟩ | hdone
    · left
      unfold teardownStep
      by_cases h0 : s.onBeforeFinally.triggerCount = 0
      · rw [if_pos h0]
        refine ⟨h1, h2, h3, h4, ?_⟩
        simp [SignalOnce.trigger, h0, h5]
      · rw [if_neg h0]
        exact ⟨h1, h2, h3, h4, h5⟩
    · right
      obtain ⟨hs, h2, h3, h4, h5⟩ := hdone
      unfold teardownStep
      have h0 : ¬ s.onBeforeFinally.triggerCount = 0 := by omega
      rw [if_neg h0]
      exact ⟨hs, h2, h3, h4, h5⟩

theorem teardownStep_done (s : TeardownState) (e : TeardownEvent)
    (h : TeardownDone s) : TeardownDone (teardownStep s e) := by
  have := teardownStep_inv s e (Or.inr h)
  rcases this with ⟨h1, _⟩ | hd
  · exfalso
    obtain ⟨hs, hec, hf, hb, h5⟩ := h
    cases e with
    | cleanupInvoke =>
      unfold teardownStep at h1
      cases hc : s.cleanup.status with
      | init => exact hs hc
      | pending => rw [hc] at h1; simp [pOnceStep, hc] at h1
      | fulfilled v => rw [hc] at h1; simp [pOnceStep, hc] at h1
      | rejected e0 => rw [hc] at h1; simp [pOnceStep, hc] at h1
    | guardedBeforeFinally =>
      unfold teardownStep at h1
      have h0 : ¬ s.onBeforeFinally.triggerCount = 0 := by omega
      rw [if_neg h0] at h1
      exact hs h1
  · exact hd

theorem teardownRun_done (evs : List TeardownEvent) :
    ∀ s : TeardownState, TeardownDone s → TeardownDone (teardownRun s evs) := by
  induction evs with
  | nil => intro s h; exact h
  | cons e evs ih =>
    intro s h
    exact ih (teardownStep s e) (teardownStep_done s e h)

theorem teardownRun_done_of_invoke (evs : List TeardownEvent) :
    ∀ s : TeardownState, TeardownInv s →
      TeardownEvent.cleanupInvoke ∈ evs → TeardownDone (teardownRun s evs) := by
  induction evs with
  | nil =>
    intro s _ hmem
    cases hmem
  | cons e evs ih =>
    intro s hinv hmem
    cases e with
    | cleanupInvoke =>
      have hd : TeardownDone (teardownStep s TeardownEvent.cleanupInvoke) := by
        rcases hinv with hph | hdone
        · rcases teardownStep_inv s TeardownEvent.cleanupInvoke (Or.inl hph) with h | h
          · exfalso
            obtain ⟨h1, _⟩ := hph
            obtain ⟨h1', _⟩ := h
            unfold teardownStep at h1'
            rw [h1] at h1'
            simp at h1'
          · exact h
        · exact teardownStep_done s _ hdone
      exact teardownRun_done evs _ hd
    | guardedBeforeFinally =>
      have hmem' : TeardownEvent.cleanupInvoke ∈ evs := by
        rcases List.mem_cons.mp hmem with h | h
        · cases h
        · exact h
      exact ih _ (teardownStep_inv s _ hinv) hmem'

/-- C4 (confirmed).  For every sequence of teardown triggers containing at
least one invocation of the pOnce-wrapped `cleanup` -- covering teardown
being triggered multiple times or concurrently by `return()`, `throw()`,
natural completion and upstream error, in any interleaving with the guarded
`onBeforeFinally` trigger sites -- the cleanup body executes exactly once,
and `onFinally` and `onBeforeFinally` each fire exactly once. -/
theorem claim_C4 (evs : List TeardownEvent)
    (h : TeardownEvent.cleanupInvoke ∈ evs) :
    (teardownRun teardownInit evs).onFinally.firedCount = 1 ∧
    (teardownRun teardownInit evs).onBeforeFinally.firedCount = 1 ∧
    (teardownRun teardownInit evs).cleanup.execCount = 1 := by
  have hinv : TeardownInv teardownInit := by
    left
    exact ⟨rfl, rfl, rfl, rfl, by simp [teardownInit]⟩
  obtain ⟨_, h2, h3, h4, _⟩ := teardownRun_done_of_invoke evs teardownInit hinv h
  exact ⟨h3, h4, h2⟩

/-- Witness for C4: teardown triggered three times (a guarded
`onBeforeFinally` first, then two competing cleanup invocations). -/
theorem claim_C4_witness :
    (teardownRun teardownInit
        [TeardownEvent.guardedBeforeFinally, TeardownEvent.cleanupInvoke,
         TeardownEvent.cleanupInvoke]).onFinally.firedCount = 1 ∧
    (teardownRun teardownInit
        [TeardownEvent.guardedBeforeFinally, TeardownEvent.cleanupInvoke,
         TeardownEvent.cleanupInvoke]).onBeforeFinally.firedCount = 1 ∧
    (teardownRun teardownInit
        [TeardownEvent.guardedBeforeFinally, TeardownEvent.cleanupInvoke,
         TeardownEvent.cleanupInvoke]).cleanup.execCount = 1 :=
  claim_C4
    [TeardownEvent.guardedBeforeFinally, TeardownEvent.cleanupInvoke,
     TeardownEvent.cleanupInvoke] (by decide)

/-! ## Claim C5: pipe / pipeBefore composition order

Embedding of `PipelineDefinition` (src/unnamed/part_003, lines 37-94).
`PipelineTransform` is a function from one async generator to another; the
TypeScript stores them untyped (`PipelineTransform[]` over `any`), so the
model uses endofunctions over one abstract carrier `α`. -/

structure PipelineDefinition (α : Type) : Type where
  transformsBefore : List (α → α)
  transforms : List (α → α)

/-- `pipe(fn)`: `this.transforms.push(fn)`. -/
def PipelineDefinition.pipe (d : PipelineDefinition α) (f : α → α) :
    PipelineDefinition α :=
  { d with transforms := d.transforms ++ [f] }

/-- `pipeBefore(fn)`: `this.transformsBefore.push(fn)`. -/
def PipelineDefinition.pipeBefore (d : PipelineDefinition α) (f : α → α) :
    PipelineDefinition α :=
  { d with transformsBefore := d.transformsBefore ++ [f] }

/-- `getTransforms()`: `[...this.transformsBefore, ...this.transforms]`. -/
def PipelineDefinition.getTransforms (d : PipelineDefinition α) :
    List (α → α) :=
  d.transformsBefore ++ d.transforms

inductive PipeCall (α : Type) : Type
  | pipe (f : α → α)
  | pipeBefore (f : α → α)

/-- A pre-iteration interleaving of `pipe()` / `pipeBefore()` calls. -/
def applyCalls (d : PipelineDefinition α) :
    List (PipeCall α) → PipelineDefinition α
  | [] => d
  | PipeCall.pipe f :: ops => applyCalls (d.pipe f) ops
  | PipeCall.pipeBefore f :: ops => applyCalls (d.pipeBefore f) ops

def emptyDefinition (α : Type) : PipelineDefinition α := ⟨[], []⟩

/-- `transforms.reduce((prev, transform) => transform(prev), source)` from
`Pipeline.iterate` (lines 278-280). -/
def composeTransforms (source : α) (ts : List (α → α)) : α :=
  ts.foldl (fun prev t => t prev) source

/-- The composed generator built at iteration time. -/
def iteratePipeline (source : α) (d : PipelineDefinition α) : α :=
  composeTransforms source d.getTransforms

/-- The `pipeBefore` arguments of an interleaving, in call order. -/
def beforeArgs : List (PipeCall α) → List (α → α)
  | [] => []
  | PipeCall.pipeBefore f :: ops => f :: beforeArgs ops
  | PipeCall.pipe _ :: ops => beforeArgs ops

/-- The `pipe` arguments of an interleaving, in call order. -/
def pipeArgs : List (PipeCall α) → List (α → α)
  | [] => []
  | PipeCall.pipe f :: ops => f :: pipeArgs ops
  | PipeCall.pipeBefore _ :: ops => pipeArgs ops

theorem applyCalls_spec : ∀ (ops : List (PipeCall α)) (d : PipelineDefinition α),
    applyCalls d ops =
      ⟨d.transformsBefore ++ beforeArgs ops, d.transforms ++ pipeArgs ops⟩ := by
  intro ops
  induction ops with
  | nil =>
    intro d
    simp [applyCalls, beforeArgs, pipeArgs]
  | cons op ops ih =>
    intro d
    cases op with
    | pipe f =>
      simp [applyCalls, beforeArgs, pipeArgs, ih, PipelineDefinition.pipe]
    | pipeBefore f =>
      simp [applyCalls, beforeArgs, pipeArgs, ih, PipelineDefinition.pipeBefore]

/-- C5 (confirmed).  For every interleaving of `pipe()` and `pipeBefore()`
calls made before iteration starts, the composition applied at iteration
time is always: the source first, then all `pipeBefore` stages in their
call order, then all `pipe` stages in their call order. -/
theorem claim_C5 (α : Type) (ops : List (PipeCall α)) (source : α) :
    iteratePipeline source (applyCalls (emptyDefinition α) ops) =
      composeTransforms (composeTransforms source (beforeArgs ops))
        (pipeArgs ops) := by
  rw [applyCalls_spec]
  unfold iteratePipeline PipelineDefinition.getTransforms composeTransforms
    emptyDefinition
  simp [List.foldl_append]

/-! ## Claim C6: upstream errors through pull

A source is modelled by the items it yields followed by how it finishes
(normal completion or a thrown error). -/

structure SourceModel (T E : Type) : Type where
  items : List T
  terminal : Option E
  deriving DecidableEq

inductive DrainEnd (E : Type) : Type
  | completed
  | errored (e : E)
  | stuck
  deriving DecidableEq

/-- The standalone `pull` loop body: push each source item, breaking when a
push resolves false; `none` when a push promise stays pending (the loop
would suspend awaiting a reader).  The Bool records whether the loop
consumed the whole source (and hence observes its terminal behaviour). -/
def pushLoop (s : PushBuffer T E) : List T → Option (PushBuffer T E × Bool)
  | [] => some (s, true)
  | x :: xs =>
    match s.push (Sum.inl x) with
    | (PushResult.resolved true, s') => pushLoop s' xs
    | (PushResult.pending, _) => none
    | (_, s') => some (s', false)

/-- The `PushBuffer.pull` loop body: as `pushLoop` but also breaking when
`!this.isWritable()` after a successful push. -/
def pushLoopMethod (s : PushBuffer T E) :
    List T → Option (PushBuffer T E × Bool)
  | [] => some (s, true)
  | x :: xs =>
    match s.push (Sum.inl x) with
    | (PushResult.resolved true, s') =>
      if s'.isWritable then pushLoopMethod s' xs else some (s', false)
    | (PushResult.pending, _) => none
    | (_, s') => some (s', false)

/-- Standalone `pull(src, dest)` (lines 633-653): on an upstream error the
catch runs `dest.endWrite(err)`, then the finally runs `dest.endWrite()`. -/
def pullFree (src : SourceModel T E) (dest : PushBuffer T E) :
    Option (PushBuffer T E) :=
  (pushLoop dest src.items).map fun p =>
    if p.2 then
      match src.terminal with
      | some e => (p.1.endWrite (some e)).endWrite none
      | none => p.1.endWrite none
    else p.1.endWrite none

/-- `PushBuffer.pull(src)` (lines 606-618): the catch block is empty — the
`endWrite(err)` call in it is commented out in the source — so an upstream
error is dropped and only the trailing `endWrite()` runs. -/
def PushBuffer.pullMethod (dest : PushBuffer T E) (src : SourceModel T E) :
    Option (PushBuffer T E) :=
  (pushLoopMethod dest src.items).map fun p => p.1.endWrite none

/-- Drain the buffer by repeated reads (fuel-bounded), collecting yielded
values until the iterator settles. -/
def drain : Nat → PushBuffer T E → List T × DrainEnd E
  | 0, _ => ([], DrainEnd.stuck)
  | fuel + 1, s =>
    match s.readStep with
    | (ReadResult.yields x, s') =>
      let p := drain fuel s'
      (x :: p.1, p.2)
    | (ReadResult.throws e, _) => ([], DrainEnd.errored e)
    | (ReadResult.done, _) => ([], DrainEnd.completed)
    | (ReadResult.blocked, _) => ([], DrainEnd.stuck)

theorem PushBuffer.endWrite_readGate (s : PushBuffer T E) (e : Option E) :
    (s.endWrite e).readGate = s.readGate.openGate := by
  unfold PushBuffer.endWrite
  cases e
  · rfl
  · dsimp only
    split <;> rfl

theorem PushBuffer.endWrite_iterDone (s : PushBuffer T E) (e : Option E) :
    (s.endWrite e).iterDone = s.iterDone := by
  unfold PushBuffer.endWrite
  cases e
  · rfl
  · dsimp only
    split <;> rfl

theorem PushBuffer.endWrite_error_none_arg (s : PushBuffer T E) :
    (s.endWrite none).error = s.error := rfl

theorem PushBuffer.endWrite_error_some (s : PushBuffer T E) (e : E)
    (h : s.error = none) : (s.endWrite (some e)).error = some e := by
  unfold PushBuffer.endWrite
  simp [h]

/-- Pushing a list of items through the standalone pull loop from a
writable state with enough room: every push resolves true, the loop
completes, and the items are appended. -/
theorem pushLoop_ok : ∀ (xs : List T) (s : PushBuffer T E),
    s.isWritable = true →
    s.buffer.length + xs.length < s.bufferSize →
    ∃ s', pushLoop s xs = some (s', true) ∧
      s'.buffer = s.buffer ++ xs.map Sum.inl ∧
      s'.bufferSize = s.bufferSize ∧
      s'.error = s.error ∧
      s'.iterDone = s.iterDone ∧
      s'.isWritable = true ∧
      s'.readGate.isLocked = false := by
  intro xs
  induction xs with
  | nil =>
    intro s hw _
    refine ⟨s, rfl, by simp, rfl, rfl, rfl, hw, ?_⟩
    exact ((PushBuffer.isWritable_iff s).mp hw).2
  | cons x xs ih =>
    intro s hw hroom
    have hpush := PushBuffer.push_writable s (Sum.inl x) hw
    have hlt : s.buffer.length + 1 < s.bufferSize := by
      simp only [List.length_cons] at hroom
      omega
    rw [if_pos hlt] at hpush
    set s1 : PushBuffer T E :=
      { s with
        buffer := s.buffer ++ [Sum.inl x]
        writeGate :=
          ⟨if s.buffer.length + 1 < s.bufferSize then GateState.opened
            else GateState.closed⟩
        readGate := ⟨GateState.opened⟩ } with hs1
    have hw1 : s1.isWritable = true := by
      simp only [PushBuffer.isWritable, hs1, Gate.isLocked]
      split <;> simp
    have hroom1 : s1.buffer.length + xs.length < s1.bufferSize := by
      simp only [hs1, List.length_append, List.length_cons, List.length_nil]
      simp only [List.length_cons] at hroom
      omega
    obtain ⟨s', hrun, hb, hn, he, hd, hw', hr'⟩ := ih s1 hw1 hroom1
    refine ⟨s', ?_, ?_, by rw [hn], by rw [he], by rw [hd], hw', hr'⟩
    · unfold pushLoop
      rw [hpush]
      exact hrun
    · rw [hb, hs1]
      simp

/-- Same for the `PushBuffer.pull` loop: with room, the extra
`!isWritable()` break never triggers. -/
theorem pushLoopMethod_ok : ∀ (xs : List T) (s : PushBuffer T E),
    s.isWritable = true →
    s.buffer.length + xs.length < s.bufferSize →
    ∃ s', pushLoopMethod s xs = some (s', true) ∧
      s'.buffer = s.buffer ++ xs.map Sum.inl ∧
      s'.bufferSize = s.bufferSize ∧
      s'.error = s.error ∧
      s'.iterDone = s.iterDone ∧
      s'.isWritable = true ∧
      s'.readGate.isLocked = false := by
  intro xs
  induction xs with
  | nil =>
    intro s hw _
    refine ⟨s, rfl, by simp, rfl, rfl, rfl, hw, ?_⟩
    exact ((PushBuffer.isWritable_iff s).mp hw).2
  | cons x xs ih =>
    intro s hw hroom
    have hpush := PushBuffer.push_writable s (Sum.inl x) hw
    have hlt : s.buffer.length + 1 < s.bufferSize := by
      simp only [List.length_cons] at hroom
      omega
    rw [if_pos hlt] at hpush
    set s1 : PushBuffer T E :=
      { s with
        buffer := s.buffer ++ [Sum.inl x]
        writeGate :=
          ⟨if s.buffer.length + 1 < s.bufferSize then GateState.opened
            else GateState.closed⟩
        readGate := ⟨GateState.opened⟩ } with hs1
    have hw1 : s1.isWritable = true := by
      simp only [PushBuffer.isWritable, hs1, Gate.isLocked]
      split <;> simp
    have hroom1 : s1.buffer.length + xs.length < s1.bufferSize := by
      simp only [hs1, List.length_append, List.length_cons, List.length_nil]
      simp only [List.length_cons] at hroom
      omega
    obtain ⟨s', hrun, hb, hn, he, hd, hw', hr'⟩ := ih s1 hw1 hroom1
    refine ⟨s', ?_, ?_, by rw [hn], by rw [he], by rw [hd], hw', hr'⟩
    · unfold pushLoopMethod
      rw [hpush]
      dsimp only
      rw [if_pos hw1]
      exact hrun
    · rw [hb, hs1]
      simp

/-- Draining a buffer that holds only data items, with the write gate
locked and the read gate unlocked (the state `endWrite` leaves behind):
yields every item in order, then surfaces the stored error, or completes
cleanly when none is stored. -/
theorem drain_flush : ∀ (items : List T) (s : PushBuffer T E),
    s.iterDone = false →
    s.readGate.isLocked = false →
    s.writeGate.isLocked = true →
    s.buffer = items.map Sum.inl →
    drain (items.length + 1) s =
      (items,
        match s.error with
        | some e => DrainEnd.errored e
        | none => DrainEnd.completed) := by
  intro items
  induction items with
  | nil =>
    intro s hdone hrl hwl hbuf
    unfold drain PushBuffer.readStep PushBuffer.finishRead
    simp only [hdone, Bool.false_eq_true, if_false]
    simp only [List.map_nil] at hbuf
    simp only [hrl, hbuf, hwl]
    cases herr : s.error <;> simp [herr]
  | cons x xs ih =>
    intro s hdone hrl hwl hbuf
    simp only [List.map_cons] at hbuf
    have hread : s.readStep =
        (ReadResult.yields x,
          ({ s with isIterating := true, buffer := xs.map Sum.inl }
            : PushBuffer T E).updateWriteGate) :=
      PushBuffer.readStep_cons_inl s x (xs.map Sum.inl) hdone hrl hbuf
    set s1 : PushBuffer T E :=
      ({ s with isIterating := true, buffer := xs.map Sum.inl }
        : PushBuffer T E).updateWriteGate with hs1
    have hwl1 : s1.writeGate.isLocked = true := by
      simp only [hs1, PushBuffer.updateWriteGate, Gate.isLocked_setOpenState]
      exact hwl
    have hih := ih s1 (by simp [hs1, PushBuffer.updateWriteGate, hdone])
      (by simp only [hs1, PushBuffer.updateWriteGate]; exact hrl) hwl1
      (by simp [hs1, PushBuffer.updateWriteGate])
    show drain (xs.length + 1 + 1) s = _
    unfold drain
    rw [hread]
    dsimp only
    rw [hih]
    have herr1 : s1.error = s.error := by
      simp [hs1, PushBuffer.updateWriteGate]
    rw [herr1]

/-- The claim of C6 is false at a concrete input: a source yielding one
item then throwing error 7, consumed via the `PushBuffer.pull` method into
a fresh `PushBuffer(4)`, leaves a consumer that sees the item and then
clean completion — the upstream error is silently swallowed, never
surfaced. -/
theorem claim_C6_counterexample :
    (((PushBuffer.new Nat Nat 4).pullMethod ⟨[5], some 7⟩).map (drain 2))
        = some ([5], DrainEnd.completed) ∧
    DrainEnd.completed ≠ (DrainEnd.errored 7 : DrainEnd Nat) := by
  refine ⟨by decide, by decide⟩

/-- C6 (amended).  An upstream error from a source consumed into a
PushBuffer via the standalone `pull` function is surfaced to the consumer:
after the items drain, iteration terminates by throwing that error.  The
`PushBuffer.pull` method, whose catch block is empty (its `endWrite(err)`
is commented out), swallows the error instead: the consumer sees the items
followed by clean completion.  (Stated for sources whose items fit the
buffer, so no push suspends.) -/
theorem claim_C6_amended (T E : Type) (n : Nat) (items : List T) (e : E)
    (h : items.length < n) :
    ((pullFree ⟨items, some e⟩ (PushBuffer.new T E n)).map
        (drain (items.length + 1))) = some (items, DrainEnd.errored e) ∧
    (((PushBuffer.new T E n).pullMethod ⟨items, some e⟩).map
        (drain (items.length + 1))) = some (items, DrainEnd.completed) := by
  have hw0 : (PushBuffer.new T E n).isWritable = true := by
    simp [PushBuffer.new, PushBuffer.isWritable, Gate.isLocked]
  have hroom : (PushBuffer.new T E n).buffer.length + items.length
      < (PushBuffer.new T E n).bufferSize := by
    simpa [PushBuffer.new] using h
  constructor
  · obtain ⟨s', hrun, hb, hn', he, hd, hw', hr'⟩ :=
      pushLoop_ok items (PushBuffer.new T E n) hw0 hroom
    unfold pullFree
    rw [hrun]
    simp only [Option.map_some']
    set s2 : PushBuffer T E := (s'.endWrite (some e)).endWrite none with hs2
    have hbuf2 : s2.buffer = items.map Sum.inl := by
      rw [hs2, (PushBuffer.endWrite_fields _ _).1, (PushBuffer.endWrite_fields _ _).1,
        hb]
      simp [PushBuffer.new]
    have hdone2 : s2.iterDone = false := by
      rw [hs2, PushBuffer.endWrite_iterDone, PushBuffer.endWrite_iterDone, hd]
      rfl
    have hrl2 : s2.readGate.isLocked = false := by
      rw [hs2, PushBuffer.endWrite_readGate, PushBuffer.endWrite_readGate]
      simp only [Gate.openGate, Gate.isLocked_setOpenState]
      exact hr'
    have hwl2 : s2.writeGate.isLocked = true := by
      rw [hs2, (PushBuffer.endWrite_fields _ _).2.2]
      simp [Gate.isLocked]
    have herr2 : s2.error = some e := by
      rw [hs2, PushBuffer.endWrite_error_none_arg,
        PushBuffer.endWrite_error_some]
      rw [he]
      rfl
    have := drain_flush items s2 hdone2 hrl2 hwl2 hbuf2
    rw [herr2] at this
    simp only [if_pos trivial]
    rw [this]
  · obtain ⟨s', hrun, hb, hn', he, hd, hw', hr'⟩ :=
      pushLoopMethod_ok items (PushBuffer.new T E n) hw0 hroom
    unfold PushBuffer.pullMethod
    rw [hrun]
    simp only [Option.map_some']
    set s2 : PushBuffer T E := s'.endWrite none with hs2
    have hbuf2 : s2.buffer = items.map Sum.inl := by
      rw [hs2, (PushBuffer.endWrite_fields _ _).1, hb]
      simp [PushBuffer.new]
    have hdone2 : s2.iterDone = false := by
      rw [hs2, PushBuffer.endWrite_iterDone, hd]
      rfl
    have hrl2 : s2.readGate.isLocked = false := by
      rw [hs2, PushBuffer.endWrite_readGate]
      simp only [Gate.openGate, Gate.isLocked_setOpenState]
      exact hr'
    have hwl2 : s2.writeGate.isLocked = true := by
      rw [hs2, (PushBuffer.endWrite_fields _ _).2.2]
      simp [Gate.isLocked]
    have herr2 : s2.error = none := by
      rw [hs2, PushBuffer.endWrite_error_none_arg, he]
      rfl
    have := drain_flush items s2 hdone2 hrl2 hwl2 hbuf2
    rw [herr2] at this
    rw [this]

/-- Witness for C6 (amended): a two-item source erroring with 9, buffer
size 4. -/
theorem claim_C6_witness :
    ((pullFree ⟨[1, 2], some 9⟩ (PushBuffer.new Nat Nat 4)).map (drain 3))
        = some ([1, 2], DrainEnd.errored 9) ∧
    (((PushBuffer.new Nat Nat 4).pullMethod ⟨[1, 2], some 9⟩).map (drain 3))
        = some ([1, 2], DrainEnd.completed) :=
  claim_C6_amended Nat Nat 4 [1, 2] 9 (by decide)

/-! ## Claim C7: double iteration

`Pipeline[Symbol.asyncIterator]` throws
`new StreamrClientError('already iterating', 'PIPELINE_ERROR')` when
`isIterating` is set.  `PushBuffer[Symbol.asyncIterator]` and
`PushBuffer.collect` instead evaluate `new this.constructor.Error(...)`;
the `PushBuffer` class declares no static `Error` member and no subclass in
the repository does, so the property lookup yields `undefined` and
JavaScript raises `TypeError: this.constructor.Error is not a constructor`
— a different kind of failure than the class of StreamrClientError
failures the spec calls IllegalState. -/

inductive ThrownKind : Type
  | streamrClientError (code : String)
  | typeErrorNotAConstructor
  deriving DecidableEq

/-- `PushBuffer[Symbol.asyncIterator]()` (lines 620-627). -/
def PushBuffer.symbolAsyncIterator (s : PushBuffer T E) :
    Except ThrownKind (PushBuffer T E) :=
  if s.isIterating then Except.error ThrownKind.typeErrorNotAConstructor
  else Except.ok s

/-- The guard at the top of `PushBuffer.collect` (lines 465-474). -/
def PushBuffer.collectGuard (s : PushBuffer T E) :
    Except ThrownKind Unit :=
  if s.isIterating then Except.error ThrownKind.typeErrorNotAConstructor
  else Except.ok ()

/-- Iteration-tracking state of a Pipeline (set when `iterate()` starts). -/
structure PipelineIterState : Type where
  isIterating : Bool
  deriving DecidableEq

/-- `Pipeline[Symbol.asyncIterator]()` (lines 340-347). -/
def PipelineIterState.symbolAsyncIterator (p : PipelineIterState) :
    Except ThrownKind PipelineIterState :=
  if p.isIterating then
    Except.error (ThrownKind.streamrClientError "PIPELINE_ERROR")
  else Except.ok p

/-- C7 evaluated at the failing input (code_bug).  A `PushBuffer` whose
iteration has started (here: a fresh buffer after its first read attempt,
which runs the generator body and sets `isIterating`): a second
`[Symbol.asyncIterator]()` — or a `collect()` — does fail, but with a
TypeError from constructing `undefined`, not with an IllegalState error;
the Pipeline counterpart does fail with the IllegalState-class
StreamrClientError. -/
theorem claim_C7 :
    (((PushBuffer.new Nat Nat 4).readStep).2.symbolAsyncIterator
        = Except.error ThrownKind.typeErrorNotAConstructor) ∧
    (((PushBuffer.new Nat Nat 4).readStep).2.collectGuard
        = Except.error ThrownKind.typeErrorNotAConstructor) ∧
    (ThrownKind.typeErrorNotAConstructor
        ≠ ThrownKind.streamrClientError "PIPELINE_ERROR") ∧
    ((PipelineIterState.mk true).symbolAsyncIterator
        = Except.error (ThrownKind.streamrClientError "PIPELINE_ERROR")) := by
  refine ⟨rfl, rfl, by decide, rfl⟩

/-! ## Claims C8-C9: OrderingUtil (ChainMultiplexer)

Embedding of `OrderingUtil`
(src/packages/client/src/subscribe/ordering/OrderingUtil.ts).
`OrderedMsgChain` itself is not part of the repository snapshot; the pieces
these claims need are modelled from the spec: a chain is constructed for a
(publisherId, msgChainId) pair with the multiplexer's current
`maxGapRequests`, and `disable()` "sets maxGapRequests to 0".  JS strings
are modelled as `List Char`, so the routing key `publisherId + msgChainId`
is list append; `cid` models JS object identity (creation order);
`orderedChains` models the `Record<string, OrderedMsgChain>`.  The chain's
internal ordering state and the error/skip/drain event fan-in play no role
in these claims and are not modelled. -/

structure OrderedMsgChain : Type where
  publisherId : List Char
  msgChainId : List Char
  maxGapRequests : Option Nat
  cid : Nat
  deriving DecidableEq

/-- Modelled from the spec: the chain's `disable()` sets its
maxGapRequests to 0. -/
def OrderedMsgChain.disable (c : OrderedMsgChain) : OrderedMsgChain :=
  { c with maxGapRequests := some 0 }

structure OrderingUtil : Type where
  maxGapRequests : Option Nat
  orderedChains : List Char → Option OrderedMsgChain
  nextCid : Nat

def OrderingUtil.initUtil (mgr : Option Nat) : OrderingUtil :=
  ⟨mgr, fun _ => none, 0⟩

/-- `getChain(publisherId, msgChainId)` (lines 42-63): look up
`publisherId + msgChainId`, lazily constructing a chain with the
multiplexer's current configuration on first use. -/
def OrderingUtil.getChain (u : OrderingUtil)
    (publisherId msgChainId : List Char) :
    OrderedMsgChain × OrderingUtil :=
  let key := publisherId ++ msgChainId
  match u.orderedChains key with
  | some c => (c, u)
  | none =>
    let c : OrderedMsgChain :=
      ⟨publisherId, msgChainId, u.maxGapRequests, u.nextCid⟩
    (c, { u with
            orderedChains := fun k => if k = key then some c else u.orderedChains k
            nextCid := u.nextCid + 1 })

/-- `disable()` (lines 83-88): zero the multiplexer's own setting and
disable every existing chain. -/
def OrderingUtil.disable (u : OrderingUtil) : OrderingUtil :=
  { u with
      maxGapRequests := some 0
      orderedChains := fun k => (u.orderedChains k).map OrderedMsgChain.disable }

/-- The chain-resolution step shared by `add` and `markMessageExplicitly`:
both route through `getChain` on the message's (publisherId, msgChainId). -/
inductive ChainOp : Type
  | getChain (publisherId msgChainId : List Char)

def OrderingUtil.applyOps (u : OrderingUtil) : List ChainOp → OrderingUtil
  | [] => u
  | ChainOp.getChain p m :: ops => ((u.getChain p m).2).applyOps ops

/-- All-disabled invariant: the multiplexer's setting is 0 and every stored
chain is disabled. -/
def OrderingUtil.AllZero (u : OrderingUtil) : Prop :=
  u.maxGapRequests = some 0 ∧
  ∀ k c, u.orderedChains k = some c → c.maxGapRequests = some 0

theorem OrderingUtil.allZero_getChain (u : OrderingUtil)
    (p m : List Char) (h : u.AllZero) : ((u.getChain p m).2).AllZero := by
  obtain ⟨h1, h2⟩ := h
  unfold OrderingUtil.getChain
  cases hc : u.orderedChains (p ++ m) with
  | some c =>
    simp only [hc]
    exact ⟨h1, h2⟩
  | none =>
    simp only [hc]
    refine ⟨h1, ?_⟩
    intro k c hkc
    dsimp only at hkc
    by_cases hk : k = p ++ m
    · rw [if_pos hk] at hkc
      injection hkc with hkc
      rw [← hkc, h1]
    · rw [if_neg hk] at hkc
      exact h2 k c hkc

theorem OrderingUtil.allZero_disable (u : OrderingUtil) :
    (u.disable).AllZero := by
  refine ⟨rfl, ?_⟩
  intro k c hkc
  unfold OrderingUtil.disable at hkc
  dsimp only at hkc
  cases hc : u.orderedChains k with
  | none => rw [hc] at hkc; cases hkc
  | some c0 =>
    rw [hc] at hkc
    injection hkc with hkc
    rw [← hkc]
    rfl

theorem OrderingUtil.allZero_applyOps (ops : List ChainOp) :
    ∀ u : OrderingUtil, u.AllZero → (u.applyOps ops).AllZero := by
  induction ops with
  | nil => intro u h; exact h
  | cons op ops ih =>
    intro u h
    cases op with
    | getChain p m =>
      exact ih _ (OrderingUtil.allZero_getChain u p m h)

/-- C8 (confirmed).  After `disable()`, `maxGapRequests` is 0 for the
multiplexer and for every chain — every already-existing chain has been
disabled, and every chain lazily created by any later sequence of
`add`/`markMessageExplicitly` routings is constructed with
`maxGapRequests = 0`. -/
theorem claim_C8 (u : OrderingUtil) (ops : List ChainOp) :
    ((u.disable).applyOps ops).maxGapRequests = some 0 ∧
    ∀ k c, ((u.disable).applyOps ops).orderedChains k = some c →
      c.maxGapRequests = some 0 :=
  OrderingUtil.allZero_applyOps ops u.disable (OrderingUtil.allZero_disable u)

/-- Witness for C8: a multiplexer created without a maxGapRequests setting
and with one pre-existing chain, disabled, then routing one more message
key. -/
theorem claim_C8_witness :
    (((((OrderingUtil.initUtil none).getChain ['p'] ['q']).2).disable.applyOps
        [ChainOp.getChain ['a'] ['b']]).maxGapRequests = some 0) ∧
    (OrderedMsgChain.mk ['a'] ['b'] (some 0) 1).maxGapRequests = some 0 :=
  ⟨(claim_C8 (((OrderingUtil.initUtil none).getChain ['p'] ['q']).2)
      [ChainOp.getChain ['a'] ['b']]).1,
   (claim_C8 (((OrderingUtil.initUtil none).getChain ['p'] ['q']).2)
      [ChainOp.getChain ['a'] ['b']]).2
     (['a'] ++ ['b']) (OrderedMsgChain.mk ['a'] ['b'] (some 0) 1) (by decide)⟩

/-- Well-formedness of the chain map: every stored chain sits at the key
built from its own ids, stored cids are below the allocation counter, and
distinct keys hold distinct chain objects (distinct cids). -/
def OrderingUtil.WF (u : OrderingUtil) : Prop :=
  (∀ k c, u.orderedChains k = some c →
    k = c.publisherId ++ c.msgChainId ∧ c.cid < u.nextCid) ∧
  (∀ k1 k2 c1 c2, u.orderedChains k1 = some c1 →
    u.orderedChains k2 = some c2 → c1.cid = c2.cid → k1 = k2)

theorem OrderingUtil.WF_initUtil (mgr : Option Nat) :
    (OrderingUtil.initUtil mgr).WF := by
  constructor
  · intro k c h
    cases h
  · intro k1 k2 c1 c2 h1
    cases h1

theorem OrderingUtil.WF_getChain (u : OrderingUtil) (p m : List Char)
    (h : u.WF) : ((u.getChain p m).2).WF := by
  obtain ⟨h1, h2⟩ := h
  unfold OrderingUtil.getChain
  cases hc : u.orderedChains (p ++ m) with
  | some c =>
    simp only [hc]
    exact ⟨h1, h2⟩
  | none =>
    simp only [hc]
    constructor
    · intro k c hkc
      dsimp only at hkc ⊢
      by_cases hk : k = p ++ m
      · rw [if_pos hk] at hkc
        injection hkc with hkc
        rw [← hkc]
        exact ⟨hk, Nat.lt_succ_self _⟩
      · rw [if_neg hk] at hkc
        obtain ⟨hkey, hcid⟩ := h1 k c hkc
        exact ⟨hkey, by omega⟩
    · intro k1 k2 c1 c2 hk1 hk2 hcid
      dsimp only at hk1 hk2
      by_cases e1 : k1 = p ++ m <;> by_cases e2 : k2 = p ++ m
      · rw [e1, e2]
      · rw [if_pos e1] at hk1
        rw [if_neg e2] at hk2
        injection hk1 with hk1
        obtain ⟨_, hc2⟩ := h1 k2 c2 hk2
        rw [← hk1] at hcid
        dsimp only at hcid
        omega
      · rw [if_neg e1] at hk1
        rw [if_pos e2] at hk2
        injection hk2 with hk2
        obtain ⟨_, hc1⟩ := h1 k1 c1 hk1
        rw [← hk2] at hcid
        dsimp only at hcid
        omega
      · rw [if_neg e1] at hk1
        rw [if_neg e2] at hk2
        exact h2 k1 k2 c1 c2 hk1 hk2 hcid

/-- `getChain` leaves the requested key populated with the returned chain
object (lazy construction on first use). -/
theorem OrderingUtil.getChain_lookup (u : OrderingUtil) (p m : List Char) :
    ((u.getChain p m).2).orderedChains (p ++ m) = some (u.getChain p m).1 := by
  unfold OrderingUtil.getChain
  cases hc : u.orderedChains (p ++ m) with
  | some c =>
    simp only [hc]
  | none =>
    simp only [hc, if_pos trivial]

/-- C9 (confirmed).  Two messages routed through the multiplexer resolve to
the same MessageChain object (same identity) precisely when their chain
keys — the (publisherId, msgChainId) pairs — are equal; and a chain is
stored under its key on first use.  The hypothesis `p1.length = p2.length`
reflects that publisher ids are EthereumAddress values, which all have the
same length (0x + 40 hex digits), making the concatenated routing key
`publisherId + msgChainId` collision-free. -/
theorem claim_C9 (u : OrderingUtil) (hwf : u.WF)
    (p1 m1 p2 m2 : List Char) (hlen : p1.length = p2.length) :
    ((u.getChain p1 m1).1.cid = (((u.getChain p1 m1).2).getChain p2 m2).1.cid
      ↔ (p1 = p2 ∧ m1 = m2)) ∧
    ((u.getChain p1 m1).2).orderedChains (p1 ++ m1)
      = some (u.getChain p1 m1).1 := by
  have hlook := OrderingUtil.getChain_lookup u p1 m1
  refine ⟨?_, hlook⟩
  have hwf1 : ((u.getChain p1 m1).2).WF := OrderingUtil.WF_getChain u p1 m1 hwf
  set u1 := (u.getChain p1 m1).2 with hu1
  set c1 := (u.getChain p1 m1).1 with hc1
  obtain ⟨w1, w2⟩ := hwf1
  cases hc2 : u1.orderedChains (p2 ++ m2) with
  | some c =>
    have hres : (u1.getChain p2 m2).1 = c := by
      unfold OrderingUtil.getChain
      simp only [hc2]
    rw [hres]
    constructor
    · intro hcid
      have hkeys := w2 (p1 ++ m1) (p2 ++ m2) c1 c hlook hc2 hcid
      exact List.append_inj hkeys hlen
    · rintro ⟨hp, hm⟩
      rw [← hp, ← hm] at hc2
      rw [hlook] at hc2
      injection hc2 with hc2
      rw [hc2]
  | none =>
    have hres : (u1.getChain p2 m2).1 =
        ⟨p2, m2, u1.maxGapRequests, u1.nextCid⟩ := by
      unfold OrderingUtil.getChain
      simp only [hc2]
    rw [hres]
    have hlt : c1.cid < u1.nextCid := (w1 (p1 ++ m1) c1 hlook).2
    constructor
    · intro hcid
      dsimp only at hcid
      omega
    · rintro ⟨hp, hm⟩
      rw [← hp, ← hm] at hc2
      rw [hlook] at hc2
      cases hc2

/-- Witness for C9: distinct msgChainIds under the same publisher resolve
to distinct chains; the chain is stored under its key. -/
theorem claim_C9_witness :
    (((OrderingUtil.initUtil none).getChain ['a'] ['b']).1.cid =
        ((((OrderingUtil.initUtil none).getChain ['a'] ['b']).2).getChain
          ['a'] ['c']).1.cid
      ↔ (['a'] = ['a'] ∧ ['b'] = ['c'])) ∧
    (((OrderingUtil.initUtil none).getChain ['a'] ['b']).2).orderedChains
        (['a'] ++ ['b'])
      = some ((OrderingUtil.initUtil none).getChain ['a'] ['b']).1 :=
  claim_C9 (OrderingUtil.initUtil none) (OrderingUtil.WF_initUtil none)
    ['a'] ['b'] ['a'] ['c'] rfl
